import Mathlib

/-!
Verification of the format-string engine of the `rename` utility
(`formatstring.py`).

Strings are modelled as `List Char` (`Str`).  The Python string
primitives the engine relies on (slicing, `split`, `rsplit`, `isdigit`,
`os.path.basename` / `dirname` / `join` for POSIX paths) are modelled
explicitly.  Filesystem access performed by the `H`, `S` and `M`
directives is abstracted into a `FileEnv` whose accesses either return a
value or fail as the untrapped `OSError` that `open`/`os.stat` raise on
a missing or unreadable file (the source wraps none of them);
`trace`/`debug` logging is omitted, while
the `warning` and `error` level diagnostics the engine emits are
modelled as explicit `LogMsg` values.  Message strings keep the static
template text of the source; interpolated values are carried as fields
of the structured diagnostics instead.
-/

abbrev Str := List Char

/-- Model of Python `str.isdigit` restricted to ASCII: true iff the
string is nonempty and all characters are decimal digits. -/
def pyIsdigit (s : Str) : Bool :=
  !s.isEmpty && s.all (fun c => c.isDigit)

/-- Model of `isnumber` from `formatstring.py`: like `str.isdigit` but
allowing a single leading minus sign (and only a minus sign). -/
def isnumber (value : Str) : Bool :=
  if value.head? = some '-' then pyIsdigit value.tail else pyIsdigit value

/-- Numeric value of a string of decimal digits. -/
def digitsToNat (s : Str) : Nat :=
  s.foldl (fun a c => a * 10 + (c.toNat - '0'.toNat)) 0

/-- Model of Python `int` on strings accepted by `isnumber`: an
optional leading minus sign followed by decimal digits. -/
def pyInt (s : Str) : Int :=
  if s.head? = some '-' then -(digitsToNat s.tail : Int) else (digitsToNat s : Int)

/-- Model of Python slicing `s[a:b]`: negative bounds index from the
end, out-of-range bounds clamp, and an empty slice results when the
effective begin is not below the effective end. -/
def pySlice (s : Str) (a b : Int) : Str :=
  let n : Int := s.length
  let a2 : Int := if a < 0 then max (n + a) 0 else min a n
  let b2 : Int := if b < 0 then max (n + b) 0 else min b n
  (s.take b2.toNat).drop a2.toNat

/-- Fuel-driven worker for `pySplit`; the fuel only bounds the
recursion (each step consumes at least one character of `s`, so
`s.length + 1` fuel is always enough). -/
def pySplitAux (sep : Str) : Nat → Str → List Str
  | 0, s => [s]
  | _ + 1, [] => [[]]
  | fuel + 1, c :: rest =>
    if sep ≠ [] ∧ sep.isPrefixOf (c :: rest) then
      [] :: pySplitAux sep fuel ((c :: rest).drop sep.length)
    else
      match pySplitAux sep fuel rest with
      | [] => [[c]]
      | t :: ts => (c :: t) :: ts

/-- Model of Python `str.split(sep)` for a nonempty separator:
leftmost, non-overlapping splitting on the literal substring `sep`. -/
def pySplit (sep s : Str) : List Str :=
  pySplitAux sep (s.length + 1) s

/-- Split at the first occurrence of the character `c`, as Python
`s.split(c, 1)` does; `none` when `c` does not occur. -/
def splitOnceFirst (c : Char) (s : Str) : Option (Str × Str) :=
  if s.contains c then
    some (s.takeWhile (fun x => x ≠ c), (s.dropWhile (fun x => x ≠ c)).tail)
  else none

/-- Split at the last occurrence of the character `c`, as Python
`s.rsplit(c, 1)` does; `none` when `c` does not occur. -/
def splitOnceLast (c : Char) (s : Str) : Option (Str × Str) :=
  if s.contains c then
    some (((s.reverse.dropWhile (fun x => x ≠ c)).tail).reverse,
          (s.reverse.takeWhile (fun x => x ≠ c)).reverse)
  else none

/-- Model of POSIX `os.path.basename`: the suffix after the last slash
(the whole string when there is no slash). -/
def py_basename (p : Str) : Str :=
  (p.reverse.takeWhile (fun c => c ≠ '/')).reverse

/-- Model of POSIX `os.path.dirname`: the prefix up to the last slash,
with trailing slashes stripped unless the prefix is entirely slashes. -/
def py_dirname (p : Str) : Str :=
  let head := (p.reverse.dropWhile (fun c => c ≠ '/')).reverse
  if !head.isEmpty && !(head.all (fun c => c = '/')) then
    (head.reverse.dropWhile (fun c => c = '/')).reverse
  else head

/-- Model of POSIX `os.path.join` on two components. -/
def py_join (a b : Str) : Str :=
  if b.head? = some '/' then b
  else if a.isEmpty || (a.getLast? = some '/') then a ++ b
  else a ++ '/' :: b

/-- Error raised while parsing the format string
(`FormatParseError`): carries the input, the offending index and a
message. -/
structure FormatParseError where
  format_string : Str
  index : Nat
  message : String
deriving DecidableEq

/-- Error raised while applying a format operation to a file path
(`FormatApplyError`): carries the subject path and a message. -/
structure FormatApplyError where
  file_path : Str
  message : String
deriving DecidableEq

/-- The exceptions the engine can let escape: its own two error
classes, plus the builtin Python exceptions that untrapped operations
raise: `in` on `None` raises `TypeError`; `str.split` with an empty
separator raises `ValueError`; `open`/`os.stat` on a missing or
unreadable file raise `OSError`, which nothing in the engine
catches. -/
inductive PyExc where
  | parseError (e : FormatParseError)
  | applyError (e : FormatApplyError)
  | typeError (message : String)
  | valueError (message : String)
  | osError (message : String)
deriving DecidableEq

/-- Severity levels of the diagnostics the engine emits. -/
inductive LogLevel where
  | warning
  | error
deriving DecidableEq

/-- Structured diagnostics: the `logger.error` call of `apply_token`
for an unknown directive code, and the `logger.warning` calls of
`tok_tokenize` for an out-of-range field index. -/
inductive LogMsg where
  | invalidFormatToken (code : Char) (source_string : Str) (source_index : Nat)
  | tokenIndexLessThanZero (name : Str) (index : Int) (field_value : Str)
  | tokenIndexTooBig (name : Str) (index : Int) (field_value : Str) (count : Nat)
  | zeroLengthInterpretation
deriving DecidableEq

/-- Severity of each diagnostic, matching the logger method used in
the source. -/
def LogMsg.level : LogMsg → LogLevel
  | .invalidFormatToken _ _ _ => .error
  | _ => .warning

/-- Abstraction of the read-only filesystem accesses performed by the
`H`, `S` and `M` directives.  Each access either yields its value (the
full SHA256 hex digest of the file's bytes, the `st_size`, the
`st_mtime` timestamp) or fails with the message of the `OSError` that
`open`/`os.stat` raise on a missing or unreadable file.  `strftime`
models `datetime.fromtimestamp(mtime).strftime(pattern)`, which the
source applies with no validation of the pattern. -/
structure FileEnv where
  sha256hex : Str → Except String Str
  stat_size : Str → Except String Nat
  stat_mtime : Str → Except String Int
  strftime : Int → Str → Str

/-- A parsed directive, the dict built by `parse_format_string`:
the code character, the optional raw parenthesized argument, and the
source string and offset kept for diagnostics. -/
structure Directive where
  token : Char
  field_value : Option Str
  source_string : Str
  source_index : Nat
deriving DecidableEq

/-- A token produced by the lexer: a literal character or a parsed
directive. -/
inductive Token where
  | literal (c : Char)
  | directive (d : Directive)
deriving DecidableEq

/-- Model of `get_basename`: `os.path.basename(filepath)` with at most
one trailing `os.extsep`-separated suffix removed
(`rsplit(os.extsep, 1)[0]`). -/
def get_basename (filepath : Str) : Str :=
  let b := py_basename filepath
  match splitOnceLast '.' b with
  | some (pre, _) => pre
  | none => b

/-- Model of `get_extension`: the suffix after the last `os.extsep` in
the basename, or empty when there is none. -/
def get_extension (filepath : Str) : Str :=
  match splitOnceLast '.' (py_basename filepath) with
  | some (_, ext) => ext
  | none => []

/-- A directive handler as stored in the registry: in the source,
`TOKENS[char]` holds the undecorated handler function (the decorator
registers `func` itself, not the arity-checking wrapper), called as
`func(filepath, **token)`.  A handler returns its string contribution
together with the warning diagnostics it emitted, or raises. -/
abbrev Handler := FileEnv → Str → Directive → Except PyExc (Str × List LogMsg)

/-- Handler for `%`: a literal percent sign (`tok_percent`). -/
def tok_percent : Handler := fun _ _ _ => .ok (['%'], [])

/-- Handler for `B`: the file's basename without extension
(`tok_basename`). -/
def tok_basename : Handler := fun _ filepath _ => .ok (get_basename filepath, [])

/-- Handler for `.`: the extension separator (`tok_extsep`). -/
def tok_extsep : Handler := fun _ _ _ => .ok (['.'], [])

/-- Handler for `E`: the file's extension without the separator
(`tok_extension`). -/
def tok_extension : Handler := fun _ filepath _ => .ok (get_extension filepath, [])

/-- Handler for `H` (`tok_hash`): the first eight characters of the
SHA256 hex digest of the file's bytes; the `open(...).read()` is
untrapped, so a failing read escapes as `OSError`. -/
def tok_hash : Handler := fun env filepath _ =>
  match env.sha256hex filepath with
  | .error m => .error (.osError m)
  | .ok hex => .ok (hex.take 8, [])

/-- Handler for `S` (`tok_size`): the file's size in bytes in decimal;
the `os.stat` call is untrapped, so a failing stat escapes as
`OSError`. -/
def tok_size : Handler := fun env filepath _ =>
  match env.stat_size filepath with
  | .error m => .error (.osError m)
  | .ok n => .ok (Nat.toDigits 10 n, [])

/-- Handler for `C` (`tok_substr`): a slice of the basename.  The
argument must contain a comma; each side, when nonempty, must satisfy
`isnumber`, and defaults to `0` (begin) or the basename length (end).
With a missing argument the membership test `TOK_COMMA in None` raises
`TypeError`. -/
def tok_substr : Handler := fun _ filepath d =>
  match d.field_value with
  | none => .error (.typeError "argument of type NoneType is not iterable")
  | some fv =>
    match splitOnceFirst ',' fv with
    | none => .error (.applyError ⟨filepath, "field value missing separator ,"⟩)
    | some (begin_str, end_str) =>
      if !begin_str.isEmpty && !(isnumber begin_str) then
        .error (.applyError ⟨filepath, "begin must be empty or numeric"⟩)
      else if !end_str.isEmpty && !(isnumber end_str) then
        .error (.applyError ⟨filepath, "end must be empty or numeric"⟩)
      else
        let name := get_basename filepath
        let begin_pos : Int := if !begin_str.isEmpty then pyInt begin_str else 0
        let end_pos : Int := if !end_str.isEmpty then pyInt end_str else (name.length : Int)
        .ok (pySlice name begin_pos end_pos, [])

/-- Handler for `T` (`tok_tokenize`): the 1-based `index`-th field of
the basename split on the literal `field` substring, where the
argument is `field=index` split at the last `=`.  A missing `=` or a
non-digit index raises `FormatApplyError`; an empty `field` makes
`str.split` raise `ValueError` (empty separator); an index of `0` or
past the field count logs two warnings and yields the empty string. -/
def tok_tokenize : Handler := fun _ filepath d =>
  match d.field_value with
  | none => .error (.typeError "argument of type NoneType is not iterable")
  | some fv =>
    match splitOnceLast '=' fv with
    | none => .error (.applyError ⟨filepath, "field value missing separator ="⟩)
    | some (field, index_str) =>
      if !(pyIsdigit index_str) then
        .error (.applyError ⟨filepath, "field index not numeric"⟩)
      else if field.isEmpty then
        .error (.valueError "empty separator")
      else
        let name := get_basename filepath
        let toks := pySplit field name
        let index : Int := (digitsToNat index_str : Int) - 1
        if index < 0 then
          .ok ([], [.tokenIndexLessThanZero name index fv, .zeroLengthInterpretation])
        else if (toks.length : Int) ≤ index then
          .ok ([], [.tokenIndexTooBig name index fv toks.length, .zeroLengthInterpretation])
        else
          .ok (toks.getD index.toNat [], [])

/-- Handler for `U` (`tok_upper`): `tok_tokenize`, result
upper-cased. -/
def tok_upper : Handler := fun env filepath d =>
  (tok_tokenize env filepath d).map (fun r => (r.1.map Char.toUpper, r.2))

/-- Handler for `L` (`tok_lower`): `tok_tokenize`, result
lower-cased. -/
def tok_lower : Handler := fun env filepath d =>
  (tok_tokenize env filepath d).map (fun r => (r.1.map Char.toLower, r.2))

/-- Handler for `M` (`tok_modtime`): the file's modification time
formatted with the given strftime pattern.  A missing argument raises
`FormatApplyError` (checked first, as in the source); then the
untrapped `os.stat` may escape as `OSError`. -/
def tok_modtime : Handler := fun env filepath d =>
  match d.field_value with
  | none => .error (.applyError ⟨filepath, "invalid token: missing timestamp format"⟩)
  | some fv =>
    match env.stat_mtime filepath with
    | .error m => .error (.osError m)
    | .ok mtime => .ok (env.strftime mtime fv, [])

/-- The directive registry (`TOKENS`): the fixed map from directive
code to handler built by the `_token` decorators. -/
def TOKENS (c : Char) : Option Handler :=
  if c = '%' then some tok_percent
  else if c = 'B' then some tok_basename
  else if c = '.' then some tok_extsep
  else if c = 'E' then some tok_extension
  else if c = 'H' then some tok_hash
  else if c = 'S' then some tok_size
  else if c = 'C' then some tok_substr
  else if c = 'T' then some tok_tokenize
  else if c = 'U' then some tok_upper
  else if c = 'L' then some tok_lower
  else if c = 'M' then some tok_modtime
  else none

/-- Model of `_next_char`: the character after `index`, or a
`FormatParseError` at `index` when the string ends there. -/
def next_char (fs : Str) (index : Nat) : Except FormatParseError (Char × Nat) :=
  if h : index + 1 < fs.length then .ok (fs.get ⟨index + 1, h⟩, index + 1)
  else .error ⟨fs, index, "reached end of string"⟩

/-- Worker for `consume_until`: scan from `curr` for the character
`c`; on success return the slice from `index` to the found position
and that position.  The fuel only bounds the loop (it starts at
`fs.length - curr`, which is exact); running out of characters raises
a `FormatParseError` at `index`.  The source's `can_recover` parameter
is never supplied by any caller and is not modelled. -/
def consume_until_loop (fs : Str) (index : Nat) (c : Char) :
    Nat → Nat → Except FormatParseError (Str × Nat)
  | _, 0 =>
    .error ⟨fs, index, "reached end of string while searching"⟩
  | curr, fuel + 1 =>
    if h : curr < fs.length then
      if fs.get ⟨curr, h⟩ = c then
        .ok ((fs.drop index).take (curr - index), curr)
      else consume_until_loop fs index c (curr + 1) fuel
    else .error ⟨fs, index, "reached end of string while searching"⟩

/-- Model of `_consume_until`: consume characters starting at `index`
until `c` is found. -/
def consume_until (fs : Str) (index : Nat) (c : Char) :
    Except FormatParseError (Str × Nat) :=
  consume_until_loop fs index c index (fs.length - index)

/-- Model of `_consume`: parse the entire format specifier starting at
the `%` at `index`: an optional parenthesized argument followed by the
directive code character. -/
def consume (fs : Str) (index : Nat) :
    Except FormatParseError (Char × Nat × Option Str) :=
  match next_char fs index with
  | .error e => .error e
  | .ok (nextchar, i1) =>
    if nextchar = '(' then
      match consume_until fs (i1 + 1) ')' with
      | .error e => .error e
      | .ok (field_value, i2) =>
        match next_char fs i2 with
        | .error e => .error e
        | .ok (code, i3) => .ok (code, i3, some field_value)
    else .ok (nextchar, i1, none)

/-- Worker for `parse_format_string`: the scanning loop, from `index`.
The fuel only bounds the loop: every iteration advances `index` by at
least one, so `fs.length` fuel always suffices, and fuel `0` is only
reached once `index ≥ fs.length` (where the loop ends anyway). -/
def parse_loop (fs : Str) : Nat → Nat → Except FormatParseError (List Token)
  | _, 0 => .ok []
  | index, fuel + 1 =>
    if h : index < fs.length then
      let c := fs.get ⟨index, h⟩
      if c = '%' then
        match consume fs index with
        | .error e => .error e
        | .ok (code, i2, field_value) =>
          match parse_loop fs (i2 + 1) fuel with
          | .error e => .error e
          | .ok ts => .ok (.directive ⟨code, field_value, fs, i2⟩ :: ts)
      else
        match parse_loop fs (index + 1) fuel with
        | .error e => .error e
        | .ok ts => .ok (.literal c :: ts)
    else .ok []

/-- Model of `parse_format_string`: lex a format string into literal
and directive tokens, or fail with a `FormatParseError`. -/
def parse_format_string (fs : Str) : Except FormatParseError (List Token) :=
  parse_loop fs 0 fs.length

/-- Model of `apply_token`: resolve the directive code in the
registry.  An unknown code logs an error-level diagnostic naming the
code and its source offset and contributes `None`; a known code
invokes its handler, whose exceptions propagate. -/
def apply_token (env : FileEnv) (filepath : Str) (d : Directive) :
    Except PyExc (Option Str) × List LogMsg :=
  match TOKENS d.token with
  | none => (.ok none, [.invalidFormatToken d.token d.source_string d.source_index])
  | some func =>
    match func env filepath d with
    | .error e => (.error e, [])
    | .ok (result, logs) => (.ok (some result), logs)

/-- The evaluation loop of `format_path` over the token sequence:
literal tokens are copied, directives go through `apply_token`, a
`None` contribution is skipped, and any exception aborts the walk.
The second component collects the diagnostics emitted before the walk
finished or aborted. -/
def eval_tokens (env : FileEnv) (filepath : Str) :
    List Token → Except PyExc (List Str) × List LogMsg
  | [] => (.ok [], [])
  | .literal c :: rest =>
    let r := eval_tokens env filepath rest
    (r.1.map (fun out => [c] :: out), r.2)
  | .directive d :: rest =>
    match apply_token env filepath d with
    | (.error e, logs) => (.error e, logs)
    | (.ok contrib, logs) =>
      let r := eval_tokens env filepath rest
      (r.1.map (fun out =>
        match contrib with
        | some s => s :: out
        | none => out), logs ++ r.2)

/-- Model of `format_path`: parse the format string, evaluate the
tokens against the file path, and rejoin the concatenated fragment
with the original directory component of the path. -/
def format_path (env : FileEnv) (filepath format_string : Str) :
    Except PyExc Str × List LogMsg :=
  match parse_format_string format_string with
  | .error e => (.error (.parseError e), [])
  | .ok tokens =>
    match eval_tokens env filepath tokens with
    | (.error e, logs) => (.error e, logs)
    | (.ok output, logs) =>
      (.ok (py_join (py_dirname filepath) output.flatten), logs)

/-- A concrete file environment in which every access succeeds, used
for closed evaluations. -/
def testEnv : FileEnv :=
  { sha256hex := fun _ => .ok [], stat_size := fun _ => .ok 0,
    stat_mtime := fun _ => .ok 0, strftime := fun _ _ => [] }

/-- A concrete file environment in which every filesystem access
fails, as for a missing or unreadable file. -/
def failEnv : FileEnv :=
  { sha256hex := fun _ => .error "No such file or directory",
    stat_size := fun _ => .error "No such file or directory",
    stat_mtime := fun _ => .error "No such file or directory",
    strftime := fun _ _ => [] }

/-! Helper lemmas about the evaluator. -/

theorem eval_tokens_nil (env : FileEnv) (fp : Str) :
    eval_tokens env fp [] = (.ok [], []) := rfl

theorem eval_tokens_literal (env : FileEnv) (fp : Str) (c : Char) (rest : List Token) :
    eval_tokens env fp (.literal c :: rest)
      = ((eval_tokens env fp rest).1.map (fun out => [c] :: out),
         (eval_tokens env fp rest).2) := rfl

theorem eval_tokens_directive_error (env : FileEnv) (fp : Str) (d : Directive)
    (rest : List Token) (e : PyExc) (logs : List LogMsg)
    (h : apply_token env fp d = (.error e, logs)) :
    eval_tokens env fp (.directive d :: rest) = (.error e, logs) := by
  simp only [eval_tokens, h]

/-- How a directive's contribution is added to the output list: a
`None` result is skipped, any string is appended. -/
def contribCons (contrib : Option Str) (out : List Str) : List Str :=
  match contrib with
  | some s => s :: out
  | none => out

theorem contribCons_none : contribCons none = fun out => out := rfl

theorem contribCons_some (s : Str) : contribCons (some s) = fun out => s :: out := rfl

theorem eval_tokens_directive_ok (env : FileEnv) (fp : Str) (d : Directive)
    (rest : List Token) (contrib : Option Str) (logs : List LogMsg)
    (h : apply_token env fp d = (.ok contrib, logs)) :
    eval_tokens env fp (.directive d :: rest)
      = ((eval_tokens env fp rest).1.map (contribCons contrib),
         logs ++ (eval_tokens env fp rest).2) := by
  cases contrib <;> simp only [eval_tokens, h, contribCons_none, contribCons_some]

theorem eval_tokens_fst_append (env : FileEnv) (fp : Str) (l1 l2 : List Token) :
    (eval_tokens env fp (l1 ++ l2)).1 =
      match (eval_tokens env fp l1).1 with
      | .error e => .error e
      | .ok o1 => ((eval_tokens env fp l2).1).map (fun o2 => o1 ++ o2) := by
  induction l1 with
  | nil =>
    simp only [List.nil_append, eval_tokens_nil]
    cases (eval_tokens env fp l2).1 <;> rfl
  | cons t rest ih =>
    cases t with
    | literal c =>
      rw [List.cons_append, eval_tokens_literal, eval_tokens_literal]
      simp only
      rw [ih]
      cases (eval_tokens env fp rest).1 <;> cases (eval_tokens env fp l2).1 <;>
        simp [Except.map]
    | directive d =>
      rw [List.cons_append]
      rcases ha : apply_token env fp d with ⟨e | contrib, logs⟩
      · rw [eval_tokens_directive_error env fp d (rest ++ l2) e logs ha,
            eval_tokens_directive_error env fp d rest e logs ha]
      · rw [eval_tokens_directive_ok env fp d (rest ++ l2) contrib logs ha,
            eval_tokens_directive_ok env fp d rest contrib logs ha]
        simp only
        rw [ih]
        cases (eval_tokens env fp rest).1 <;> cases (eval_tokens env fp l2).1 <;>
          cases contrib <;> simp [Except.map, contribCons]

/-! Claim C1. -/

/-- C1: for every file path and token sequence containing a directive
whose code is not in the registry, the evaluator logs an error-level
diagnostic identifying the code and its source offset, contributes
nothing to the output for that directive, and continues evaluating the
remaining tokens without raising any error. -/
theorem C1_unknown_directive_dropped (env : FileEnv) (fp : Str)
    (pre rest : List Token) (d : Directive) (h : TOKENS d.token = none) :
    (eval_tokens env fp (pre ++ Token.directive d :: rest)).1
      = (eval_tokens env fp (pre ++ rest)).1
    ∧ (eval_tokens env fp (Token.directive d :: rest)).2
        = LogMsg.invalidFormatToken d.token d.source_string d.source_index
            :: (eval_tokens env fp rest).2
    ∧ (LogMsg.invalidFormatToken d.token d.source_string d.source_index).level
        = LogLevel.error := by
  have happ : apply_token env fp d
      = (.ok none, [.invalidFormatToken d.token d.source_string d.source_index]) := by
    simp only [apply_token, h]
  have hhead : ∀ l : List Token,
      eval_tokens env fp (Token.directive d :: l)
        = ((eval_tokens env fp l).1.map (contribCons none),
           [LogMsg.invalidFormatToken d.token d.source_string d.source_index]
             ++ (eval_tokens env fp l).2) := by
    intro l
    exact eval_tokens_directive_ok env fp d l none _ happ
  refine ⟨?_, ?_, rfl⟩
  · rw [eval_tokens_fst_append, eval_tokens_fst_append]
    cases (eval_tokens env fp pre).1 with
    | error e => rfl
    | ok o1 =>
      rw [hhead rest]
      simp only [contribCons_none]
      cases (eval_tokens env fp rest).1 <;> simp [Except.map]
  · rw [hhead rest]
    simp

/-- Closed witness for C1: the unregistered code `Z` between two
literals is dropped, logged at error level, and evaluation of the
remaining tokens continues. -/
theorem C1_unknown_directive_dropped_witness :
    TOKENS 'Z' = none
    ∧ ((eval_tokens testEnv ['a']
          ([Token.literal 'x'] ++ Token.directive ⟨'Z', none, ['%', 'Z'], 1⟩
            :: [Token.literal 'y'])).1
        = (eval_tokens testEnv ['a'] ([Token.literal 'x'] ++ [Token.literal 'y'])).1
      ∧ (eval_tokens testEnv ['a']
          (Token.directive ⟨'Z', none, ['%', 'Z'], 1⟩ :: [Token.literal 'y'])).2
          = LogMsg.invalidFormatToken 'Z' ['%', 'Z'] 1
              :: (eval_tokens testEnv ['a'] [Token.literal 'y']).2
      ∧ (LogMsg.invalidFormatToken 'Z' ['%', 'Z'] 1).level = LogLevel.error) :=
  ⟨rfl, C1_unknown_directive_dropped testEnv ['a']
    [Token.literal 'x'] [Token.literal 'y'] ⟨'Z', none, ['%', 'Z'], 1⟩ rfl⟩

/-! Claim C2. -/

/-- C2: if any directive handler raises `ApplyError` while evaluating
a token sequence, the error propagates out of evaluation immediately —
it is not caught per-token — so the whole format operation aborts
(the result is that error no matter what tokens follow) and no output
list is produced. -/
theorem C2_apply_error_propagates (env : FileEnv) (fp : Str)
    (pre post : List Token) (d : Directive) (func : Handler)
    (e : FormatApplyError) (out : List Str)
    (hf : TOKENS d.token = some func)
    (he : func env fp d = .error (.applyError e))
    (hpre : (eval_tokens env fp pre).1 = .ok out) :
    (eval_tokens env fp (pre ++ Token.directive d :: post)).1
      = .error (.applyError e) := by
  have happ : apply_token env fp d = (.error (.applyError e), []) := by
    simp only [apply_token, hf, he]
  rw [eval_tokens_fst_append, hpre]
  rw [eval_tokens_directive_error env fp d post _ _ happ]
  rfl

/-- Closed witness for C2: `%C` with the malformed argument `x`
(no comma) raises `ApplyError` and aborts evaluation of the whole
sequence even though more tokens follow. -/
theorem C2_apply_error_propagates_witness :
    TOKENS 'C' = some tok_substr
    ∧ tok_substr testEnv ['a'] ⟨'C', some ['x'], [], 0⟩
        = .error (.applyError ⟨['a'], "field value missing separator ,"⟩)
    ∧ (eval_tokens testEnv ['a'] []).1 = .ok []
    ∧ (eval_tokens testEnv ['a']
        ([] ++ Token.directive ⟨'C', some ['x'], [], 0⟩ :: [Token.literal 'y'])).1
        = .error (.applyError ⟨['a'], "field value missing separator ,"⟩) :=
  ⟨rfl, rfl, rfl,
    C2_apply_error_propagates testEnv ['a'] [] [Token.literal 'y']
      ⟨'C', some ['x'], [], 0⟩ tok_substr ⟨['a'], "field value missing separator ,"⟩
      [] rfl rfl rfl⟩

/-! Claim C9. -/

/-- C9: whenever `format_path` succeeds, the returned path is the
original directory component of the input path rejoined (by path
join) with the evaluated filename fragment; directive evaluation never
alters that directory component. -/
theorem C9_directory_preserved (env : FileEnv) (fp fs r : Str)
    (h : (format_path env fp fs).1 = .ok r) :
    ∃ ts out logs, parse_format_string fs = .ok ts
      ∧ eval_tokens env fp ts = (.ok out, logs)
      ∧ r = py_join (py_dirname fp) out.flatten := by
  unfold format_path at h
  cases hp : parse_format_string fs with
  | error e => rw [hp] at h; exact absurd h (by simp)
  | ok ts =>
    rw [hp] at h
    dsimp only at h
    rcases hev : eval_tokens env fp ts with ⟨res, logs⟩
    rw [hev] at h
    cases res with
    | error e => exact absurd h (by simp)
    | ok out =>
      simp only [Except.ok.injEq] at h
      exact ⟨ts, out, logs, rfl, hev, h.symm⟩

/-- Closed witness for C9: formatting `dir/sub/a.txt` with `%B-x%.%E`
returns `dir/sub/a-x.txt`, the original directory rejoined with the
evaluated fragment. -/
theorem C9_directory_preserved_witness :
    (format_path testEnv ("dir/sub/a.txt".data) ("%B-x%.%E".data)).1
        = .ok ("dir/sub/a-x.txt".data)
    ∧ ∃ ts out logs,
        parse_format_string ("%B-x%.%E".data) = .ok ts
        ∧ eval_tokens testEnv ("dir/sub/a.txt".data) ts = (.ok out, logs)
        ∧ ("dir/sub/a-x.txt".data)
            = py_join (py_dirname ("dir/sub/a.txt".data)) out.flatten :=
  ⟨rfl, C9_directory_preserved testEnv ("dir/sub/a.txt".data) ("%B-x%.%E".data)
    ("dir/sub/a-x.txt".data) rfl⟩

/-! Claim C10. -/

/-- The directive codes whose handlers use no argument. -/
def zeroArgCodes : List Char := ['%', '.', 'B', 'E', 'H', 'S']

/-- C10: each zero-argument directive (`%`, `.`, `B`, `E`, `H`, `S`)
accepts and silently ignores a supplied parenthesized argument: with
any argument it evaluates to exactly the same result as with no
argument (for every file environment, succeeding or failing), and no
arity error is raised before or during handler invocation — the
registry stores the undecorated handlers, so the arity-checking
wrapper is never consulted at dispatch; `%`, `.`, `B`, `E` always
succeed, and `H`/`S` succeed whenever their file access does. -/
theorem C10_zero_arg_directives_ignore_argument (env : FileEnv) (fp fv ss : Str)
    (si : Nat) (c : Char) (hc : c ∈ zeroArgCodes) :
    apply_token env fp ⟨c, some fv, ss, si⟩ = apply_token env fp ⟨c, none, ss, si⟩
    ∧ (c = '%' ∨ c = '.' ∨ c = 'B' ∨ c = 'E' →
        ∃ s, (apply_token env fp ⟨c, some fv, ss, si⟩).1 = .ok (some s))
    ∧ (c = 'H' → ∀ hex, env.sha256hex fp = .ok hex →
        (apply_token env fp ⟨c, some fv, ss, si⟩).1 = .ok (some (hex.take 8)))
    ∧ (c = 'S' → ∀ n, env.stat_size fp = .ok n →
        (apply_token env fp ⟨c, some fv, ss, si⟩).1 = .ok (some (Nat.toDigits 10 n))) := by
  simp only [zeroArgCodes, List.mem_cons, List.not_mem_nil, or_false] at hc
  rcases hc with rfl | rfl | rfl | rfl | rfl | rfl
  · exact ⟨rfl, fun _ => ⟨_, rfl⟩,
      fun h => absurd h (by decide), fun h => absurd h (by decide)⟩
  · exact ⟨rfl, fun _ => ⟨_, rfl⟩,
      fun h => absurd h (by decide), fun h => absurd h (by decide)⟩
  · exact ⟨rfl, fun _ => ⟨_, rfl⟩,
      fun h => absurd h (by decide), fun h => absurd h (by decide)⟩
  · exact ⟨rfl, fun _ => ⟨_, rfl⟩,
      fun h => absurd h (by decide), fun h => absurd h (by decide)⟩
  · refine ⟨rfl, fun h => absurd h (by decide), fun _ hex hok => ?_,
      fun h => absurd h (by decide)⟩
    have ht : TOKENS 'H' = some tok_hash := rfl
    simp [apply_token, ht, tok_hash, hok]
  · refine ⟨rfl, fun h => absurd h (by decide),
      fun h => absurd h (by decide), fun _ n hok => ?_⟩
    have ht : TOKENS 'S' = some tok_size := rfl
    simp [apply_token, ht, tok_size, hok]

/-- Closed witness for C10: `%(xyz)B` evaluates exactly as `%B` with a
successful result, and `%(xyz)H` evaluates exactly as `%H`, succeeding
in an environment where the file read succeeds. -/
theorem C10_zero_arg_directives_ignore_argument_witness :
    ('B' ∈ zeroArgCodes
      ∧ apply_token testEnv ("a.txt".data) ⟨'B', some ("xyz".data), [], 0⟩
          = apply_token testEnv ("a.txt".data) ⟨'B', none, [], 0⟩
      ∧ ∃ s, (apply_token testEnv ("a.txt".data) ⟨'B', some ("xyz".data), [], 0⟩).1
          = .ok (some s))
    ∧ ('H' ∈ zeroArgCodes
      ∧ testEnv.sha256hex ("a.txt".data) = .ok []
      ∧ apply_token testEnv ("a.txt".data) ⟨'H', some ("xyz".data), [], 0⟩
          = apply_token testEnv ("a.txt".data) ⟨'H', none, [], 0⟩
      ∧ (apply_token testEnv ("a.txt".data) ⟨'H', some ("xyz".data), [], 0⟩).1
          = .ok (some (([] : Str).take 8))) :=
  ⟨⟨by decide,
    (C10_zero_arg_directives_ignore_argument testEnv ("a.txt".data)
      ("xyz".data) [] 0 'B' (by decide)).1,
    (C10_zero_arg_directives_ignore_argument testEnv ("a.txt".data)
      ("xyz".data) [] 0 'B' (by decide)).2.1 (by decide)⟩,
   ⟨by decide, rfl,
    (C10_zero_arg_directives_ignore_argument testEnv ("a.txt".data)
      ("xyz".data) [] 0 'H' (by decide)).1,
    (C10_zero_arg_directives_ignore_argument testEnv ("a.txt".data)
      ("xyz".data) [] 0 'H' (by decide)).2.2.1 rfl [] rfl⟩⟩

/-! Helper lemmas about the split primitives. -/

theorem mem_isDigit_of_pyIsdigit (s : Str) (x : Char)
    (h : pyIsdigit s = true) (hx : x ∈ s) : x.isDigit = true := by
  simp only [pyIsdigit, Bool.and_eq_true, List.all_eq_true] at h
  exact h.2 x hx

theorem contains_true_iff (l : Str) (c : Char) : l.contains c = true ↔ c ∈ l :=
  List.elem_iff

theorem contains_false_iff (l : Str) (c : Char) : l.contains c = false ↔ c ∉ l := by
  rw [← contains_true_iff]
  cases h : l.contains c <;> simp

theorem comma_not_mem_of_isnumber (s : Str) (h : isnumber s = true) : ',' ∉ s := by
  intro hm
  unfold isnumber at h
  by_cases hh : s.head? = some '-'
  · rw [if_pos hh] at h
    cases s with
    | nil => cases hm
    | cons x rest =>
      simp only [List.head?_cons, Option.some.injEq] at hh
      subst hh
      rcases List.mem_cons.mp hm with hc | hc
      · exact absurd hc.symm (by decide)
      · exact absurd (mem_isDigit_of_pyIsdigit rest ',' h hc) (by decide)
  · rw [if_neg hh] at h
    exact absurd (mem_isDigit_of_pyIsdigit s ',' h hm) (by decide)

theorem takeWhile_all_append (p : Char → Bool) (l : Str) (c : Char) (r : Str)
    (hl : ∀ x ∈ l, p x = true) (hc : p c = false) :
    (l ++ c :: r).takeWhile p = l := by
  induction l with
  | nil => simp [List.takeWhile_cons, hc]
  | cons x xs ih =>
    rw [List.cons_append, List.takeWhile_cons, if_pos (hl x (List.mem_cons_self x xs)),
      ih (fun y hy => hl y (List.mem_cons_of_mem x hy))]

theorem dropWhile_all_append (p : Char → Bool) (l : Str) (c : Char) (r : Str)
    (hl : ∀ x ∈ l, p x = true) (hc : p c = false) :
    (l ++ c :: r).dropWhile p = c :: r := by
  induction l with
  | nil => simp [List.dropWhile_cons, hc]
  | cons x xs ih =>
    rw [List.cons_append, List.dropWhile_cons, if_pos (hl x (List.mem_cons_self x xs)),
      ih (fun y hy => hl y (List.mem_cons_of_mem x hy))]

theorem decide_ne_of_not_mem (c : Char) (l : Str) (h : c ∉ l) :
    ∀ x ∈ l, decide (x ≠ c) = true := by
  intro x hx
  simp only [decide_eq_true_eq]
  exact fun he => h (he ▸ hx)

theorem splitOnceFirst_append (c : Char) (l r : Str) (h : c ∉ l) :
    splitOnceFirst c (l ++ c :: r) = some (l, r) := by
  have hc : (l ++ c :: r).contains c = true :=
    (contains_true_iff _ _).mpr (by simp)
  have hcf : decide (c ≠ c) = false := by simp
  unfold splitOnceFirst
  split
  · rw [takeWhile_all_append _ l c r (decide_ne_of_not_mem c l h) hcf,
      dropWhile_all_append _ l c r (decide_ne_of_not_mem c l h) hcf]
    rfl
  · rename_i hfalse
    exact absurd hc hfalse

theorem splitOnceFirst_none (c : Char) (s : Str) (h : s.contains c = false) :
    splitOnceFirst c s = none := by
  simp [splitOnceFirst, (contains_false_iff s c).mp h]

theorem splitOnceLast_append (c : Char) (l r : Str) (h : c ∉ r) :
    splitOnceLast c (l ++ c :: r) = some (l, r) := by
  have hc : (l ++ c :: r).contains c = true :=
    (contains_true_iff _ _).mpr (by simp)
  have hcf : decide (c ≠ c) = false := by simp
  have hr : c ∉ r.reverse := by simpa using h
  have hrev : (l ++ c :: r).reverse = r.reverse ++ c :: l.reverse := by
    simp
  unfold splitOnceLast
  split
  · rw [hrev, takeWhile_all_append _ r.reverse c l.reverse (decide_ne_of_not_mem c _ hr) hcf,
      dropWhile_all_append _ r.reverse c l.reverse (decide_ne_of_not_mem c _ hr) hcf]
    simp
  · rename_i hfalse
    exact absurd hc hfalse

theorem splitOnceLast_none (c : Char) (s : Str) (h : s.contains c = false) :
    splitOnceLast c s = none := by
  simp [splitOnceLast, (contains_false_iff s c).mp h]

theorem pySlice_zero_length (s : Str) : pySlice s 0 (s.length : Int) = s := by
  unfold pySlice
  have h0 : ¬((0 : Int) < 0) := by omega
  have hn : ¬((s.length : Int) < 0) := by
    simp [Int.not_lt, Int.natCast_nonneg]
  simp only [h0, if_false, hn, min_self]
  rw [min_eq_left (Int.natCast_nonneg s.length)]
  simp

/-! Claim C4. -/

/-- C4: for every path with basename `b` and every well-formed
argument `begin,end`, the directive `%(begin,end)C` evaluates to the
Python slice `b[begin:end]`: a missing begin defaults to `0`, a
missing end defaults to the length of `b`, negative values index from
the end and out-of-range bounds clamp (the `pySlice` semantics); in
particular `%(,)C` yields the full basename and
`format("foobar.txt", "%(1,2)C%.%E")` is `"o.txt"`. -/
theorem C4_substr_slice_semantics (env : FileEnv) (p ss : Str) (si : Nat)
    (bs es : Str)
    (hbs : bs = [] ∨ isnumber bs = true) (hes : es = [] ∨ isnumber es = true) :
    tok_substr env p ⟨'C', some (bs ++ ',' :: es), ss, si⟩
      = .ok (pySlice (get_basename p)
          (if bs = [] then 0 else pyInt bs)
          (if es = [] then ((get_basename p).length : Int) else pyInt es), [])
    ∧ tok_substr env p ⟨'C', some [','], ss, si⟩ = .ok (get_basename p, [])
    ∧ (format_path testEnv ("foobar.txt".data) ("%(1,2)C%.%E".data)).1
        = .ok ("o.txt".data) := by
  refine ⟨?_, ?_, rfl⟩
  · have hmem : ',' ∉ bs := by
      rcases hbs with rfl | hn
      · simp
      · exact comma_not_mem_of_isnumber bs hn
    have hsplit := splitOnceFirst_append ',' bs es hmem
    have hb : (!bs.isEmpty && !(isnumber bs)) = false := by
      rcases hbs with rfl | hn
      · simp
      · simp [hn]
    have he2 : (!es.isEmpty && !(isnumber es)) = false := by
      rcases hes with rfl | hn
      · simp
      · simp [hn]
    have hbeq : (if !bs.isEmpty then pyInt bs else 0)
        = (if bs = [] then 0 else pyInt bs) := by
      cases bs <;> simp
    have heeq : (if !es.isEmpty then pyInt es else ((get_basename p).length : Int))
        = (if es = [] then ((get_basename p).length : Int) else pyInt es) := by
      cases es <;> simp
    simp only [tok_substr, hsplit, hb, he2, Bool.false_eq_true, if_false, hbeq, heeq]
  · have hsplit : splitOnceFirst ',' [','] = some ([], []) :=
      splitOnceFirst_append ',' [] [] (by simp)
    simp only [tok_substr, hsplit, List.isEmpty_nil, Bool.not_true,
      Bool.false_and, Bool.false_eq_true, if_false]
    rw [pySlice_zero_length]

/-- Closed witness for C4: the argument `1,2` on `foobar.txt`
(basename `foobar`) produces the slice `o`, and the two concrete
conjuncts hold. -/
theorem C4_substr_slice_semantics_witness :
    (("1".data : Str) = [] ∨ isnumber ("1".data) = true)
    ∧ (("2".data : Str) = [] ∨ isnumber ("2".data) = true)
    ∧ (tok_substr testEnv ("foobar.txt".data) ⟨'C', some ("1".data ++ ',' :: "2".data), [], 0⟩
        = .ok (pySlice (get_basename ("foobar.txt".data))
            (if ("1".data : Str) = [] then 0 else pyInt ("1".data))
            (if ("2".data : Str) = [] then ((get_basename ("foobar.txt".data)).length : Int)
             else pyInt ("2".data)), [])
      ∧ tok_substr testEnv ("foobar.txt".data) ⟨'C', some [','], [], 0⟩
          = .ok (get_basename ("foobar.txt".data), [])
      ∧ (format_path testEnv ("foobar.txt".data) ("%(1,2)C%.%E".data)).1
          = .ok ("o.txt".data)) :=
  ⟨Or.inr (by decide), Or.inr (by decide),
    C4_substr_slice_semantics testEnv ("foobar.txt".data) [] 0 ("1".data) ("2".data)
      (Or.inr (by decide)) (Or.inr (by decide))⟩

/-! Claim C5. -/

/-- The class of bound strings that claim C5 calls "purely numeric
(optionally signed)", following the claim's words: its examples of
valid signed bounds include both `+3` and `-3`, so both sign
characters are admitted here.  To be compared with the code's
`isnumber`, which admits only `-`. -/
def claim_signed_numeric (s : Str) : Bool :=
  if s.head? = some '+' ∨ s.head? = some '-' then pyIsdigit s.tail
  else pyIsdigit s

/-- C5 counterexample: `+3` is "purely numeric (optionally signed)" in
the claim's sense, yet `%(+3,5)C` raises `ApplyError`: the code's
`isnumber` accepts a `-` sign only, so a `+`-signed bound is rejected
even though the claim presents it as valid. -/
theorem C5_counterexample_plus_signed_bound :
    claim_signed_numeric ("+3".data) = true
    ∧ tok_substr testEnv ("a.txt".data) ⟨'C', some ("+3,5".data), [], 0⟩
        = .error (.applyError ⟨"a.txt".data, "begin must be empty or numeric"⟩) := by
  exact ⟨by decide, rfl⟩

/-- C5 (amended): evaluating `%C` raises `ApplyError` when its
argument lacks a comma or when either side of the comma, if present,
is not purely numeric, where "numeric" admits an optional leading
minus sign only (a `+`-signed bound such as `+3` is rejected with
`ApplyError`, unlike the claim's examples); and evaluating `%T`, `%U`
or `%L` raises `ApplyError` when its argument lacks the `=` separator
or when the index portion (after the last `=`) is not a non-negative
integer string. -/
theorem C5_malformed_arguments_raise (env : FileEnv) (p fv ss : Str) (si : Nat) :
    (fv.contains ',' = false →
      tok_substr env p ⟨'C', some fv, ss, si⟩
        = .error (.applyError ⟨p, "field value missing separator ,"⟩))
    ∧ (∀ bs es, fv = bs ++ ',' :: es → ',' ∉ bs →
        ((bs ≠ [] ∧ isnumber bs = false) ∨ (es ≠ [] ∧ isnumber es = false)) →
        ∃ e, tok_substr env p ⟨'C', some fv, ss, si⟩ = .error (.applyError e))
    ∧ (fv.contains '=' = false →
        tok_tokenize env p ⟨'T', some fv, ss, si⟩
          = .error (.applyError ⟨p, "field value missing separator ="⟩)
        ∧ tok_upper env p ⟨'U', some fv, ss, si⟩
          = .error (.applyError ⟨p, "field value missing separator ="⟩)
        ∧ tok_lower env p ⟨'L', some fv, ss, si⟩
          = .error (.applyError ⟨p, "field value missing separator ="⟩))
    ∧ (∀ field idx, fv = field ++ '=' :: idx → '=' ∉ idx → pyIsdigit idx = false →
        tok_tokenize env p ⟨'T', some fv, ss, si⟩
          = .error (.applyError ⟨p, "field index not numeric"⟩)
        ∧ tok_upper env p ⟨'U', some fv, ss, si⟩
          = .error (.applyError ⟨p, "field index not numeric"⟩)
        ∧ tok_lower env p ⟨'L', some fv, ss, si⟩
          = .error (.applyError ⟨p, "field index not numeric"⟩)) := by
  refine ⟨?_, ?_, ?_, ?_⟩
  · intro h
    simp [tok_substr, splitOnceFirst_none ',' fv h]
  · rintro bs es rfl hmem hbad
    have hsplit := splitOnceFirst_append ',' bs es hmem
    by_cases hfirst : (!bs.isEmpty && !(isnumber bs)) = true
    · exact ⟨⟨p, "begin must be empty or numeric"⟩, by
        simp only [tok_substr, hsplit, hfirst, if_true]⟩
    · have hsecond : (!es.isEmpty && !(isnumber es)) = true := by
        rcases hbad with ⟨hne, hnum⟩ | ⟨hne, hnum⟩
        · refine absurd (show (!bs.isEmpty && !(isnumber bs)) = true from ?_) hfirst
          cases bs
          · exact absurd rfl hne
          · simp [hnum]
        · cases es
          · exact absurd rfl hne
          · simp [hnum]
      exact ⟨⟨p, "end must be empty or numeric"⟩, by
        simp only [tok_substr, hsplit]
        rw [if_neg hfirst, if_pos hsecond]⟩
  · intro h
    refine ⟨?_, ?_, ?_⟩ <;>
      simp [tok_tokenize, tok_upper, tok_lower, splitOnceLast_none '=' fv h, Except.map]
  · rintro field idx rfl hmem hdig
    have hsplit := splitOnceLast_append '=' field idx hmem
    refine ⟨?_, ?_, ?_⟩ <;>
      simp [tok_tokenize, tok_upper, tok_lower, hsplit, hdig, Except.map]

/-- Closed witness for C5 (amended): concrete malformed arguments for
`%C` (including the `+`-signed bound `+3`) and `%T` raise
`ApplyError`. -/
theorem C5_malformed_arguments_raise_witness :
    (("x".data : Str).contains ',' = false
      ∧ tok_substr testEnv ("a.txt".data) ⟨'C', some ("x".data), [], 0⟩
          = .error (.applyError ⟨"a.txt".data, "field value missing separator ,"⟩))
    ∧ (("+3,5".data : Str) = "+3".data ++ ',' :: "5".data
      ∧ (("+3".data : Str) ≠ [] ∧ isnumber ("+3".data) = false)
      ∧ ∃ e, tok_substr testEnv ("a.txt".data) ⟨'C', some ("+3,5".data), [], 0⟩
          = .error (.applyError e))
    ∧ (("ab".data : Str).contains '=' = false
      ∧ tok_tokenize testEnv ("a.txt".data) ⟨'T', some ("ab".data), [], 0⟩
          = .error (.applyError ⟨"a.txt".data, "field value missing separator ="⟩))
    ∧ (("x=-1".data : Str) = "x".data ++ '=' :: "-1".data
      ∧ pyIsdigit ("-1".data) = false
      ∧ tok_upper testEnv ("a.txt".data) ⟨'U', some ("x=-1".data), [], 0⟩
          = .error (.applyError ⟨"a.txt".data, "field index not numeric"⟩)) := by
  refine ⟨⟨by decide, ?_⟩, ⟨by decide, ⟨by decide, by decide⟩, ?_⟩,
    ⟨by decide, ?_⟩, ⟨by decide, by decide, ?_⟩⟩
  · exact (C5_malformed_arguments_raise testEnv ("a.txt".data) ("x".data) [] 0).1
      (by decide)
  · exact (C5_malformed_arguments_raise testEnv ("a.txt".data) ("+3,5".data) [] 0).2.1
      ("+3".data) ("5".data) (by decide) (by decide)
      (Or.inl ⟨by decide, by decide⟩)
  · exact ((C5_malformed_arguments_raise testEnv ("a.txt".data) ("ab".data) [] 0).2.2.1
      (by decide)).1
  · exact ((C5_malformed_arguments_raise testEnv ("a.txt".data) ("x=-1".data) [] 0).2.2.2
      ("x".data) ("-1".data) (by decide) (by decide) (by decide)).2.1

/-! Claim C6. -/

/-- C6: for every path, a field index of `0` (the smallest value the
digit-string index can denote; a genuinely negative index cannot pass
the numeric-shape check) or beyond the available field count for `%T`
yields the empty string and is not an error, logged with warning-level
diagnostics — in particular `%(-=4)T` on `foo-bar-baz.gz`, whose
basename splits into only 3 fields, yields `""`. -/
theorem C6_out_of_range_field_index (env : FileEnv) (p field idx ss : Str)
    (si : Nat) (hfield : field ≠ []) (hidx : '=' ∉ idx)
    (hdig : pyIsdigit idx = true)
    (hrange : digitsToNat idx = 0
      ∨ (pySplit field (get_basename p)).length < digitsToNat idx) :
    (∃ logs, tok_tokenize env p ⟨'T', some (field ++ '=' :: idx), ss, si⟩
        = .ok ([], logs)
      ∧ logs ≠ [] ∧ ∀ m ∈ logs, m.level = LogLevel.warning)
    ∧ tok_tokenize testEnv ("foo-bar-baz.gz".data) ⟨'T', some ("-=4".data), [], 0⟩
        = .ok ([], [.tokenIndexTooBig ("foo-bar-baz".data) 3 ("-=4".data) 3,
                    .zeroLengthInterpretation])
    ∧ (format_path testEnv ("foo-bar-baz.gz".data) ("%(-=4)T".data)).1
        = .ok [] := by
  refine ⟨?_, rfl, rfl⟩
  have hsplit := splitOnceLast_append '=' field idx hidx
  have hfe : field.isEmpty = false := by
    cases field
    · exact absurd rfl hfield
    · rfl
  rcases hrange with h0 | hbig
  · have hneg : ((digitsToNat idx : Int) - 1) < 0 := by omega
    refine ⟨[.tokenIndexLessThanZero (get_basename p)
        ((digitsToNat idx : Int) - 1) (field ++ '=' :: idx),
        .zeroLengthInterpretation], ?_, by simp, ?_⟩
    · simp only [tok_tokenize, hsplit, hdig, Bool.not_true, Bool.false_eq_true,
        if_false, hfe, if_pos hneg]
    · intro m hm
      rcases List.mem_cons.mp hm with rfl | hm2
      · rfl
      · rcases List.mem_cons.mp hm2 with rfl | hm3
        · rfl
        · cases hm3
  · have hpos : ¬(((digitsToNat idx : Int) - 1) < 0) := by omega
    have htoo : (((pySplit field (get_basename p)).length : Int)
        ≤ (digitsToNat idx : Int) - 1) := by omega
    refine ⟨[.tokenIndexTooBig (get_basename p)
        ((digitsToNat idx : Int) - 1) (field ++ '=' :: idx)
        (pySplit field (get_basename p)).length,
        .zeroLengthInterpretation], ?_, by simp, ?_⟩
    · simp only [tok_tokenize, hsplit, hdig, Bool.not_true, Bool.false_eq_true,
        if_false, hfe, if_neg hpos, if_pos htoo]
    · intro m hm
      rcases List.mem_cons.mp hm with rfl | hm2
      · rfl
      · rcases List.mem_cons.mp hm2 with rfl | hm3
        · rfl
        · cases hm3

/-- Closed witness for C6: `%(-=4)T` on `foo-bar-baz.gz` (3 fields)
yields the empty string with warning-level diagnostics. -/
theorem C6_out_of_range_field_index_witness :
    (("-".data : Str) ≠ [] ∧ '=' ∉ ("4".data : Str) ∧ pyIsdigit ("4".data) = true
      ∧ (pySplit ("-".data) (get_basename ("foo-bar-baz.gz".data))).length
          < digitsToNat ("4".data))
    ∧ ((∃ logs, tok_tokenize testEnv ("foo-bar-baz.gz".data)
          ⟨'T', some ("-".data ++ '=' :: "4".data), [], 0⟩ = .ok ([], logs)
        ∧ logs ≠ [] ∧ ∀ m ∈ logs, m.level = LogLevel.warning)
      ∧ tok_tokenize testEnv ("foo-bar-baz.gz".data) ⟨'T', some ("-=4".data), [], 0⟩
          = .ok ([], [.tokenIndexTooBig ("foo-bar-baz".data) 3 ("-=4".data) 3,
                      .zeroLengthInterpretation])
      ∧ (format_path testEnv ("foo-bar-baz.gz".data) ("%(-=4)T".data)).1
          = .ok []) :=
  ⟨⟨by decide, by decide, by decide, by decide⟩,
    C6_out_of_range_field_index testEnv ("foo-bar-baz.gz".data) ("-".data)
      ("4".data) [] 0 (by decide) (by decide) (by decide) (Or.inr (by decide))⟩

/-! Claim C3. -/

/-- Tokens on which evaluation avoids the untrapped builtin
exceptions: every `C`/`T`/`U`/`L` directive carries an argument (a
missing one hits the `in`-on-`None` `TypeError`), no `T`/`U`/`L`
argument has an empty field portion before a numeric index (which hits
the empty-separator `ValueError` of `str.split`), and the filesystem
accesses of `H`/`S`/`M` succeed on the subject path (a failing
`open`/`os.stat` escapes as `OSError`). -/
def token_total (env : FileEnv) (fp : Str) (t : Token) : Prop :=
  match t with
  | .literal _ => True
  | .directive d =>
    ((d.token = 'C' ∨ d.token = 'T' ∨ d.token = 'U' ∨ d.token = 'L') →
      d.field_value ≠ none)
    ∧ ((d.token = 'T' ∨ d.token = 'U' ∨ d.token = 'L') →
        ∀ fv idx, d.field_value = some fv →
          splitOnceLast '=' fv = some ([], idx) → pyIsdigit idx = true → False)
    ∧ (d.token = 'H' → ∃ hex, env.sha256hex fp = .ok hex)
    ∧ (d.token = 'S' → ∃ n, env.stat_size fp = .ok n)
    ∧ (d.token = 'M' → ∃ m, env.stat_mtime fp = .ok m)

theorem tok_tokenize_total (env : FileEnv) (fp : Str) (d : Directive)
    (harg : d.field_value ≠ none)
    (hshape : ∀ fv idx, d.field_value = some fv →
      splitOnceLast '=' fv = some ([], idx) → pyIsdigit idx = true → False) :
    (∃ s logs, tok_tokenize env fp d = .ok (s, logs))
    ∨ (∃ e, tok_tokenize env fp d = .error (.applyError e)) := by
  cases hfv : d.field_value with
  | none => exact absurd hfv harg
  | some fv =>
    cases hsp : splitOnceLast '=' fv with
    | none =>
      right
      exact ⟨⟨fp, "field value missing separator ="⟩, by
        simp [tok_tokenize, hfv, hsp]⟩
    | some pr =>
      obtain ⟨field, idx⟩ := pr
      by_cases hd : pyIsdigit idx = true
      · have hfe : field.isEmpty = false := by
          cases hne : field with
          | nil => exact absurd (hd) (fun hdig =>
              hshape fv idx hfv (hne ▸ hsp) hdig)
          | cons a l => rfl
        left
        simp only [tok_tokenize, hfv, hsp, hd, Bool.not_true, Bool.false_eq_true,
          if_false, hfe]
        split
        · exact ⟨_, _, rfl⟩
        · split
          · exact ⟨_, _, rfl⟩
          · exact ⟨_, _, rfl⟩
      · right
        exact ⟨⟨fp, "field index not numeric"⟩, by
          simp [tok_tokenize, hfv, hsp, hd]⟩

theorem apply_token_total (env : FileEnv) (fp : Str) (d : Directive)
    (h : token_total env fp (.directive d)) :
    (∃ contrib logs, apply_token env fp d = (.ok contrib, logs))
    ∨ (∃ e logs, apply_token env fp d = (.error (.applyError e), logs)) := by
  obtain ⟨harg, hshape, hH, hS, hM⟩ := h
  by_cases h1 : d.token = '%'
  · have ht : TOKENS d.token = some tok_percent := by rw [h1]; rfl
    exact Or.inl ⟨some ['%'], [], by simp [apply_token, ht, tok_percent]⟩
  by_cases h2 : d.token = 'B'
  · have ht : TOKENS d.token = some tok_basename := by rw [h2]; rfl
    exact Or.inl ⟨some (get_basename fp), [], by simp [apply_token, ht, tok_basename]⟩
  by_cases h3 : d.token = '.'
  · have ht : TOKENS d.token = some tok_extsep := by rw [h3]; rfl
    exact Or.inl ⟨some ['.'], [], by simp [apply_token, ht, tok_extsep]⟩
  by_cases h4 : d.token = 'E'
  · have ht : TOKENS d.token = some tok_extension := by rw [h4]; rfl
    exact Or.inl ⟨some (get_extension fp), [], by simp [apply_token, ht, tok_extension]⟩
  by_cases h5 : d.token = 'H'
  · have ht : TOKENS d.token = some tok_hash := by rw [h5]; rfl
    obtain ⟨hex, hok⟩ := hH h5
    exact Or.inl ⟨some (hex.take 8), [], by simp [apply_token, ht, tok_hash, hok]⟩
  by_cases h6 : d.token = 'S'
  · have ht : TOKENS d.token = some tok_size := by rw [h6]; rfl
    obtain ⟨n, hok⟩ := hS h6
    exact Or.inl ⟨some (Nat.toDigits 10 n), [],
      by simp [apply_token, ht, tok_size, hok]⟩
  by_cases h7 : d.token = 'C'
  · have ht : TOKENS d.token = some tok_substr := by rw [h7]; rfl
    cases hfv : d.field_value with
    | none => exact absurd hfv (harg (Or.inl h7))
    | some fv =>
      cases hsp : splitOnceFirst ',' fv with
      | none =>
        refine Or.inr ⟨⟨fp, "field value missing separator ,"⟩, [], ?_⟩
        simp [apply_token, ht, tok_substr, hfv, hsp]
      | some pr =>
        obtain ⟨bs, es⟩ := pr
        by_cases hb : (!bs.isEmpty && !(isnumber bs)) = true
        · refine Or.inr ⟨⟨fp, "begin must be empty or numeric"⟩, [], ?_⟩
          simp only [apply_token, ht, tok_substr, hfv, hsp, if_pos hb]
        by_cases he : (!es.isEmpty && !(isnumber es)) = true
        · refine Or.inr ⟨⟨fp, "end must be empty or numeric"⟩, [], ?_⟩
          simp only [apply_token, ht, tok_substr, hfv, hsp, if_neg hb, if_pos he]
        · refine Or.inl ⟨some (pySlice (get_basename fp)
            (if !bs.isEmpty then pyInt bs else 0)
            (if !es.isEmpty then pyInt es else ((get_basename fp).length : Int))), [], ?_⟩
          simp only [apply_token, ht, tok_substr, hfv, hsp, if_neg hb, if_neg he]
  by_cases h8 : d.token = 'T'
  · have ht : TOKENS d.token = some tok_tokenize := by rw [h8]; rfl
    rcases tok_tokenize_total env fp d (harg (Or.inr (Or.inl h8)))
        (hshape (Or.inl h8)) with ⟨s, logs, hr⟩ | ⟨e, hr⟩
    · exact Or.inl ⟨some s, logs, by simp [apply_token, ht, hr]⟩
    · exact Or.inr ⟨e, [], by simp [apply_token, ht, hr]⟩
  by_cases h9 : d.token = 'U'
  · have ht : TOKENS d.token = some tok_upper := by rw [h9]; rfl
    rcases tok_tokenize_total env fp d (harg (Or.inr (Or.inr (Or.inl h9))))
        (hshape (Or.inr (Or.inl h9))) with ⟨s, logs, hr⟩ | ⟨e, hr⟩
    · exact Or.inl ⟨some (s.map Char.toUpper), logs,
        by simp [apply_token, ht, tok_upper, hr, Except.map]⟩
    · exact Or.inr ⟨e, [], by simp [apply_token, ht, tok_upper, hr, Except.map]⟩
  by_cases h10 : d.token = 'L'
  · have ht : TOKENS d.token = some tok_lower := by rw [h10]; rfl
    rcases tok_tokenize_total env fp d (harg (Or.inr (Or.inr (Or.inr h10))))
        (hshape (Or.inr (Or.inr h10))) with ⟨s, logs, hr⟩ | ⟨e, hr⟩
    · exact Or.inl ⟨some (s.map Char.toLower), logs,
        by simp [apply_token, ht, tok_lower, hr, Except.map]⟩
    · exact Or.inr ⟨e, [], by simp [apply_token, ht, tok_lower, hr, Except.map]⟩
  by_cases h11 : d.token = 'M'
  · have ht : TOKENS d.token = some tok_modtime := by rw [h11]; rfl
    cases hfv : d.field_value with
    | none =>
      refine Or.inr ⟨⟨fp, "invalid token: missing timestamp format"⟩, [], ?_⟩
      simp [apply_token, ht, tok_modtime, hfv]
    | some fv =>
      obtain ⟨m, hok⟩ := hM h11
      exact Or.inl ⟨some (env.strftime m fv), [],
        by simp [apply_token, ht, tok_modtime, hfv, hok]⟩
  · have ht : TOKENS d.token = none := by
      simp [TOKENS, h1, h2, h3, h4, h5, h6, h7, h8, h9, h10, h11]
    exact Or.inl ⟨none, [.invalidFormatToken d.token d.source_string d.source_index],
      by simp [apply_token, ht]⟩

theorem eval_tokens_total (env : FileEnv) (fp : Str) (ts : List Token)
    (h : ∀ t ∈ ts, token_total env fp t) :
    (∃ out, (eval_tokens env fp ts).1 = .ok out)
    ∨ (∃ e, (eval_tokens env fp ts).1 = .error (.applyError e)) := by
  induction ts with
  | nil => exact Or.inl ⟨[], rfl⟩
  | cons t rest ih =>
    have hrest := ih (fun x hx => h x (List.mem_cons_of_mem t hx))
    cases t with
    | literal c =>
      rw [eval_tokens_literal]
      rcases hrest with ⟨out, ho⟩ | ⟨e, he⟩
      · exact Or.inl ⟨[c] :: out, by simp [ho, Except.map]⟩
      · exact Or.inr ⟨e, by simp [he, Except.map]⟩
    | directive d =>
      rcases apply_token_total env fp d (h _ (List.mem_cons_self _ rest)) with
        ⟨contrib, logs, ha⟩ | ⟨e, logs, ha⟩
      · rw [eval_tokens_directive_ok env fp d rest contrib logs ha]
        rcases hrest with ⟨out, ho⟩ | ⟨e, he⟩
        · exact Or.inl ⟨contribCons contrib out, by simp [ho, Except.map]⟩
        · exact Or.inr ⟨e, by simp [he, Except.map]⟩
      · rw [eval_tokens_directive_error env fp d rest _ logs ha]
        exact Or.inr ⟨e, rfl⟩

/-- C3 counterexample: `%C` — a known argument-taking directive with a
missing argument — makes `format("a.txt", "%C")` fail with a
`TypeError` (from the untrapped `TOK_COMMA in None` membership test);
and on a missing or unreadable file, `%H`, `%S` and `%(x)M` make
`format` fail with the untrapped `OSError` of `open`/`os.stat`
(nothing in the engine wraps it into `ApplyError`, despite the spec's
section 4.4).  All four failures are neither `ParseError` nor
`ApplyError`. -/
theorem C3_counterexample_untrapped_exceptions :
    (format_path testEnv ("a.txt".data) ("%C".data)).1
      = .error (.typeError "argument of type NoneType is not iterable")
    ∧ (format_path failEnv ("missing.txt".data) ("%H".data)).1
        = .error (.osError "No such file or directory")
    ∧ (format_path failEnv ("missing.txt".data) ("%S".data)).1
        = .error (.osError "No such file or directory")
    ∧ (format_path failEnv ("missing.txt".data) ("%(x)M".data)).1
        = .error (.osError "No such file or directory") := ⟨rfl, rfl, rfl, rfl⟩

/-- C3 (amended): `format(path, format_string)` either returns a
string or fails with `ParseError` or `ApplyError`, provided every
`C`/`T`/`U`/`L` directive in the parsed format string carries an
argument, no `T`/`U`/`L` argument has an empty field portion before a
numeric index, and every filesystem access made by `H`/`S`/`M` on the
path succeeds.  Outside that proviso failures of other kinds escape: a
missing argument to `C`/`T`/`U`/`L` as a `TypeError`, an empty split
separator for `T`/`U`/`L` as a `ValueError`, and a failed file access
of `H`/`S`/`M` as an `OSError` (contrary to the claim and to the
spec's section 4.4, which wants I/O failures surfaced as `ApplyError`;
`%M` with a missing argument does raise `ApplyError`). -/
theorem C3_error_taxonomy (env : FileEnv) (fp fs : Str)
    (h : ∀ ts, parse_format_string fs = .ok ts → ∀ t ∈ ts, token_total env fp t) :
    (∃ r, (format_path env fp fs).1 = .ok r)
    ∨ (∃ e, (format_path env fp fs).1 = .error (.parseError e))
    ∨ (∃ e, (format_path env fp fs).1 = .error (.applyError e)) := by
  unfold format_path
  cases hp : parse_format_string fs with
  | error e => exact Or.inr (Or.inl ⟨e, rfl⟩)
  | ok ts =>
    rcases hev : eval_tokens env fp ts with ⟨res, logs⟩
    rcases eval_tokens_total env fp ts (h ts hp) with ⟨out, ho⟩ | ⟨e, he⟩
    · rw [hev] at ho
      simp only at ho
      subst ho
      exact Or.inl ⟨py_join (py_dirname fp) out.flatten, by simp [hev]⟩
    · rw [hev] at he
      simp only at he
      subst he
      exact Or.inr (Or.inr ⟨e, by simp [hev]⟩)

/-- Closed witness for C3 (amended): the format string `%B.%E`
satisfies the proviso and formatting succeeds (or would fail only with
the two engine error kinds). -/
theorem C3_error_taxonomy_witness :
    (∃ r, (format_path testEnv ("a.txt".data) ("%B.%E".data)).1 = .ok r)
    ∨ (∃ e, (format_path testEnv ("a.txt".data) ("%B.%E".data)).1
        = .error (.parseError e))
    ∨ (∃ e, (format_path testEnv ("a.txt".data) ("%B.%E".data)).1
        = .error (.applyError e)) := by
  refine C3_error_taxonomy testEnv ("a.txt".data) ("%B.%E".data) ?_
  intro ts hts t ht
  have hp : parse_format_string ("%B.%E".data)
      = .ok [.directive ⟨'B', none, "%B.%E".data, 1⟩, .literal '.',
             .directive ⟨'E', none, "%B.%E".data, 4⟩] := rfl
  rw [hp] at hts
  cases hts
  rcases List.mem_cons.mp ht with rfl | ht2
  · exact ⟨fun hc => absurd hc (by decide), fun hc => absurd hc (by decide),
      fun hc => absurd hc (by decide), fun hc => absurd hc (by decide),
      fun hc => absurd hc (by decide)⟩
  rcases List.mem_cons.mp ht2 with rfl | ht3
  · trivial
  rcases List.mem_cons.mp ht3 with rfl | ht4
  · exact ⟨fun hc => absurd hc (by decide), fun hc => absurd hc (by decide),
      fun hc => absurd hc (by decide), fun hc => absurd hc (by decide),
      fun hc => absurd hc (by decide)⟩
  · cases ht4

/-! Helper lemmas about the lexer. -/

theorem parse_loop_literal (fs : Str) : ∀ (n index : Nat),
    fs.length ≤ index + n →
    (∀ j (h : j < fs.length), index ≤ j → fs.get ⟨j, h⟩ ≠ '%') →
    parse_loop fs index n = .ok ((fs.drop index).map Token.literal) := by
  intro n
  induction n with
  | zero =>
    intro index hle _
    rw [List.drop_eq_nil_of_le (by omega)]
    rfl
  | succ n ih =>
    intro index hle hno
    by_cases h : index < fs.length
    · have hc : fs.get ⟨index, h⟩ ≠ '%' := hno index h (Nat.le_refl index)
      rw [parse_loop, dif_pos h, if_neg hc,
        ih (index + 1) (by omega) (fun j hj hge => hno j hj (by omega))]
      rw [List.drop_eq_getElem_cons h]
      rfl
    · rw [parse_loop, dif_neg h, List.drop_eq_nil_of_le (by omega)]
      rfl

theorem eval_tokens_literals (env : FileEnv) (fp : Str) : ∀ l : Str,
    eval_tokens env fp (l.map Token.literal) = (.ok (l.map (fun c => [c])), []) := by
  intro l
  induction l with
  | nil => rfl
  | cons c rest ih =>
    rw [List.map_cons, eval_tokens_literal, ih]
    rfl

theorem flatten_map_singleton : ∀ l : Str, (l.map (fun c => [c])).flatten = l := by
  intro l
  induction l with
  | nil => rfl
  | cons c rest ih => simp [ih]

theorem py_dirname_no_slash (p : Str) (h : '/' ∉ p) : py_dirname p = [] := by
  have hdrop : p.reverse.dropWhile (fun c => c ≠ '/') = [] := by
    rw [List.dropWhile_eq_nil_iff]
    intro x hx
    simp only [decide_eq_true_eq]
    exact fun he => h (he ▸ (List.mem_reverse.mp hx))
  unfold py_dirname
  rw [hdrop]
  simp

theorem py_join_nil (b : Str) : py_join [] b = b := by
  unfold py_join
  by_cases hb : b.head? = some '/'
  · rw [if_pos hb]
  · rw [if_neg hb]
    simp

/-! Claim C8. -/

/-- C8: for every string `s` with no `%` and every file path,
formatting is the identity on `s`: each character lexes as a literal
token and is copied verbatim, the evaluated fragment equals `s`, and
(for a path with no directory component) `format(s) = s`. -/
theorem C8_literal_identity (env : FileEnv) (fp s : Str) (hs : '%' ∉ s) :
    parse_format_string s = .ok (s.map Token.literal)
    ∧ eval_tokens env fp (s.map Token.literal) = (.ok (s.map (fun c => [c])), [])
    ∧ (format_path env fp s).1 = .ok (py_join (py_dirname fp) s)
    ∧ ('/' ∉ fp → (format_path env fp s).1 = .ok s) := by
  have hp : parse_format_string s = .ok (s.map Token.literal) := by
    unfold parse_format_string
    refine parse_loop_literal s s.length 0 (by omega) ?_
    intro j hj _ hc
    exact hs (hc ▸ List.get_mem s j hj)
  have hev := eval_tokens_literals env fp s
  have hfmt : (format_path env fp s).1 = .ok (py_join (py_dirname fp) s) := by
    unfold format_path
    rw [hp]
    simp only
    rw [hev]
    simp only [flatten_map_singleton]
  refine ⟨hp, hev, hfmt, fun hnf => ?_⟩
  rw [hfmt, py_dirname_no_slash fp hnf, py_join_nil]

/-- Closed witness for C8: the literal-only format string `abc` on the
path `a.txt` reproduces itself. -/
theorem C8_literal_identity_witness :
    parse_format_string ("abc".data) = .ok (("abc".data).map Token.literal)
    ∧ eval_tokens testEnv ("a.txt".data) (("abc".data).map Token.literal)
        = (.ok (("abc".data).map (fun c => [c])), [])
    ∧ (format_path testEnv ("a.txt".data) ("abc".data)).1
        = .ok (py_join (py_dirname ("a.txt".data)) ("abc".data))
    ∧ ('/' ∉ ("a.txt".data : Str) →
        (format_path testEnv ("a.txt".data) ("abc".data)).1 = .ok ("abc".data)) :=
  C8_literal_identity testEnv ("a.txt".data) ("abc".data) (by decide)

theorem consume_until_loop_not_found (fs : Str) (start : Nat) (c : Char) :
    ∀ (n curr : Nat),
    (∀ j (h : j < fs.length), curr ≤ j → fs.get ⟨j, h⟩ ≠ c) →
    consume_until_loop fs start c curr n
      = .error ⟨fs, start, "reached end of string while searching"⟩ := by
  intro n
  induction n with
  | zero => intro curr _; rfl
  | succ n ih =>
    intro curr hno
    simp only [consume_until_loop]
    by_cases h : curr < fs.length
    · rw [dif_pos h, if_neg (hno curr h (Nat.le_refl curr))]
      exact ih (curr + 1) (fun j hj hge => hno j hj (by omega))
    · rw [dif_neg h]

theorem consume_until_loop_found (fs : Str) (start : Nat) (c : Char) :
    ∀ (n curr p : Nat) (hp : p < fs.length),
    curr ≤ p → p < curr + n →
    fs.get ⟨p, hp⟩ = c →
    (∀ j (h : j < fs.length), curr ≤ j → j < p → fs.get ⟨j, h⟩ ≠ c) →
    consume_until_loop fs start c curr n
      = .ok ((fs.drop start).take (p - start), p) := by
  intro n
  induction n with
  | zero =>
    intro curr p hp h1 h2 _ _
    exact absurd h1 (by omega)
  | succ n ih =>
    intro curr p hp hcp hlt hgc hno
    have hcl : curr < fs.length := by omega
    simp only [consume_until_loop]
    rw [dif_pos hcl]
    by_cases hq : curr = p
    · subst hq
      rw [if_pos hgc]
    · have hget : fs.get ⟨curr, hcl⟩ ≠ c :=
        hno curr hcl (Nat.le_refl curr) (by omega)
      rw [if_neg hget]
      exact ih (curr + 1) p hp (by omega) (by omega) hgc
        (fun j hj h1 h2 => hno j hj (by omega) h2)

theorem parse_loop_cross (fs : Str) : ∀ (d n index : Nat),
    index + d ≤ fs.length →
    (∀ j (h : j < fs.length), index ≤ j → j < index + d → fs.get ⟨j, h⟩ ≠ '%') →
    parse_loop fs index (d + n)
      = match parse_loop fs (index + d) n with
        | .error e => .error e
        | .ok ts => .ok (((fs.drop index).take d).map Token.literal ++ ts) := by
  intro d
  induction d with
  | zero =>
    intro n index _ _
    simp only [Nat.zero_add, Nat.add_zero]
    cases parse_loop fs index n <;> simp
  | succ d ih =>
    intro n index hle hno
    have hlt : index < fs.length := by omega
    have hc : fs.get ⟨index, hlt⟩ ≠ '%' := hno index hlt (Nat.le_refl _) (by omega)
    have heq : d + 1 + n = (d + n) + 1 := by omega
    rw [heq]
    simp only [parse_loop]
    rw [dif_pos hlt, if_neg hc,
      ih n (index + 1) (by omega) (fun j hj h1 h2 => hno j hj (by omega) (by omega))]
    have hidx : index + 1 + d = index + (d + 1) := by omega
    rw [hidx]
    cases hres : parse_loop fs (index + (d + 1)) n with
    | error e => rfl
    | ok ts =>
      simp only
      rw [List.drop_eq_getElem_cons hlt, List.take_succ_cons, List.map_cons]
      rfl

theorem get_append_offset (as bs : Str) (k : Nat) (hk : k < bs.length)
    (h : as.length + k < (as ++ bs).length) :
    (as ++ bs).get ⟨as.length + k, h⟩ = bs.get ⟨k, hk⟩ := by
  have h2 : as.length ≤ as.length + k := by omega
  rw [List.get_eq_getElem, List.get_eq_getElem]
  dsimp only
  rw [List.getElem_append_right h2]
  simp only [Nat.add_sub_cancel_left]

theorem get_append_left_char (as bs : Str) (j : Nat) (hj : j < as.length)
    (h : j < (as ++ bs).length) :
    (as ++ bs).get ⟨j, h⟩ = as.get ⟨j, hj⟩ := by
  rw [List.get_eq_getElem, List.get_eq_getElem, List.getElem_append_left hj]

theorem parse_append_pct_error (s rest : Str) (hs : '%' ∉ s)
    (e : FormatParseError)
    (hc : consume (s ++ '%' :: rest) s.length = .error e) :
    parse_format_string (s ++ '%' :: rest) = .error e := by
  have hlen : (s ++ '%' :: rest).length = s.length + (1 + rest.length) := by
    simp
    omega
  unfold parse_format_string
  rw [hlen, parse_loop_cross (s ++ '%' :: rest) s.length (1 + rest.length) 0
    (by omega)
    (fun j hj _ h2 => by
      rw [get_append_left_char s ('%' :: rest) j (by omega) hj]
      intro hcc
      exact hs (hcc ▸ List.get_mem s j (by omega)))]
  have hl2 : 0 + s.length = s.length := by omega
  rw [hl2]
  have h1r : 1 + rest.length = rest.length + 1 := by omega
  rw [h1r]
  simp only [parse_loop]
  have hsl : s.length < (s ++ '%' :: rest).length := by
    rw [hlen]; omega
  rw [dif_pos hsl]
  have hpct : (s ++ '%' :: rest).get ⟨s.length, hsl⟩ = '%' := by
    have := get_append_offset s ('%' :: rest) 0 (by simp)
      (by rw [hlen]; omega)
    simpa using this
  rw [if_pos hpct, hc]

theorem get_append_sub (as bs : Str) (j : Nat) (hj : j < (as ++ bs).length)
    (hge : as.length ≤ j) (hlt : j - as.length < bs.length) :
    (as ++ bs).get ⟨j, hj⟩ = bs.get ⟨j - as.length, hlt⟩ := by
  rw [List.get_eq_getElem, List.get_eq_getElem]
  dsimp only
  rw [List.getElem_append_right hge]

theorem get_append_mem_right (as bs : Str) (j : Nat) (hj : j < (as ++ bs).length)
    (hge : as.length ≤ j) : (as ++ bs).get ⟨j, hj⟩ ∈ bs := by
  rw [List.get_eq_getElem]
  dsimp only
  rw [List.getElem_append_right hge]
  exact List.getElem_mem _

theorem get_index_congr (l : Str) (i j : Nat) (h : i = j) (hi : i < l.length) :
    l.get ⟨i, hi⟩ = l.get ⟨j, h ▸ hi⟩ := by
  subst h
  rfl

theorem get_cons_cons_add_two (a b : Char) (l : Str) (k : Nat)
    (h : k + 2 < (a :: b :: l).length) :
    (a :: b :: l).get ⟨k + 2, h⟩ = l.get ⟨k, by simpa using h⟩ := rfl

/-! Claim C7. -/

/-- C7: a format string ending in an incomplete directive — a trailing
bare `%`, a `(` whose matching `)` is never found, or a completed
`(...)` argument with no directive code character after it — makes
`parse` fail with a `ParseError` identifying the offending index (and
with it the whole parse: no partial token sequence is returned).  The
three shapes are stated over an arbitrary `%`-free prefix `s` and an
arbitrary `)`-free argument body `t`. -/
theorem C7_incomplete_directive (s t : Str) (hs : '%' ∉ s) (ht : ')' ∉ t) :
    parse_format_string (s ++ ['%'])
        = .error ⟨s ++ ['%'], s.length, "reached end of string"⟩
    ∧ parse_format_string (s ++ '%' :: '(' :: t)
        = .error ⟨s ++ '%' :: '(' :: t, s.length + 2,
            "reached end of string while searching"⟩
    ∧ parse_format_string (s ++ '%' :: '(' :: (t ++ [')']))
        = .error ⟨s ++ '%' :: '(' :: (t ++ [')']), s.length + (t.length + 2),
            "reached end of string"⟩ := by
  refine ⟨?_, ?_, ?_⟩
  · -- trailing bare %
    apply parse_append_pct_error s [] hs
    have hlen : (s ++ '%' :: ([] : Str)).length = s.length + 1 := by simp
    have hnc : next_char (s ++ '%' :: ([] : Str)) s.length
        = .error ⟨s ++ '%' :: [], s.length, "reached end of string"⟩ := by
      unfold next_char
      rw [dif_neg (by rw [hlen]; omega)]
    unfold consume
    rw [hnc]
  · -- unterminated parenthesized argument
    apply parse_append_pct_error s ('(' :: t) hs
    have hlen : (s ++ '%' :: '(' :: t).length = s.length + (t.length + 2) := by
      simp
    have hnc : next_char (s ++ '%' :: '(' :: t) s.length
        = .ok ('(', s.length + 1) := by
      unfold next_char
      rw [dif_pos (by rw [hlen]; omega)]
      rw [get_append_sub s ('%' :: '(' :: t) (s.length + 1) (by rw [hlen]; omega)
        (by omega) (by simp)]
      rw [get_index_congr ('%' :: '(' :: t) (s.length + 1 - s.length) 1 (by omega)]
      rfl
    have hcu : consume_until (s ++ '%' :: '(' :: t) (s.length + 1 + 1) ')'
        = .error ⟨s ++ '%' :: '(' :: t, s.length + 2,
            "reached end of string while searching"⟩ := by
      unfold consume_until
      exact consume_until_loop_not_found (s ++ '%' :: '(' :: t) (s.length + 1 + 1)
        ')' _ _ (fun j hj hge => by
          have hmem : (s ++ '%' :: '(' :: t).get ⟨j, hj⟩ ∈ '%' :: '(' :: t :=
            get_append_mem_right s ('%' :: '(' :: t) j hj (by omega)
          rcases List.mem_cons.mp hmem with heq | hmem2
          · rw [heq]; decide
          rcases List.mem_cons.mp hmem2 with heq | hmem3
          · rw [heq]; decide
          · exact fun hc => ht (hc ▸ hmem3))
    unfold consume
    rw [hnc]
    simp only
    rw [if_pos trivial, hcu]
  · -- completed argument with no directive code after it
    apply parse_append_pct_error s ('(' :: (t ++ [')'])) hs
    have hlen : (s ++ '%' :: '(' :: (t ++ [')'])).length
        = s.length + (t.length + 3) := by
      simp
    have hnc : next_char (s ++ '%' :: '(' :: (t ++ [')'])) s.length
        = .ok ('(', s.length + 1) := by
      unfold next_char
      rw [dif_pos (by rw [hlen]; omega)]
      rw [get_append_sub s ('%' :: '(' :: (t ++ [')'])) (s.length + 1)
        (by rw [hlen]; omega) (by omega) (by simp)]
      rw [get_index_congr ('%' :: '(' :: (t ++ [')'])) (s.length + 1 - s.length) 1
        (by omega)]
      rfl
    have hp : s.length + (t.length + 2)
        < (s ++ '%' :: '(' :: (t ++ [')'])).length := by
      rw [hlen]; omega
    have hgc : (s ++ '%' :: '(' :: (t ++ [')'])).get
        ⟨s.length + (t.length + 2), hp⟩ = ')' := by
      rw [get_append_sub s ('%' :: '(' :: (t ++ [')'])) (s.length + (t.length + 2))
        hp (by omega) (by simp)]
      rw [get_index_congr ('%' :: '(' :: (t ++ [')']))
        (s.length + (t.length + 2) - s.length) (t.length + 2) (by omega)]
      rw [get_cons_cons_add_two '%' '(' (t ++ [')']) t.length]
      rw [get_append_sub t [')'] t.length (by simp) (by omega) (by simp)]
      rw [get_index_congr [')'] (t.length - t.length) 0 (by omega)]
      rfl
    have hno : ∀ j (h : j < (s ++ '%' :: '(' :: (t ++ [')'])).length),
        s.length + 1 + 1 ≤ j → j < s.length + (t.length + 2) →
        (s ++ '%' :: '(' :: (t ++ [')'])).get ⟨j, h⟩ ≠ ')' := by
      intro j hj h1 h2
      have hjs : s.length ≤ j := by omega
      rw [get_append_sub s ('%' :: '(' :: (t ++ [')'])) j hj hjs
        (by rw [hlen] at hj; simp; omega)]
      have hk : j - s.length = (j - s.length - 2) + 2 := by omega
      rw [get_index_congr ('%' :: '(' :: (t ++ [')'])) (j - s.length)
        ((j - s.length - 2) + 2) hk]
      rw [get_cons_cons_add_two '%' '(' (t ++ [')']) (j - s.length - 2)]
      have hklt : j - s.length - 2 < t.length := by omega
      have hmem : (t ++ [')']).get ⟨j - s.length - 2, by simp; omega⟩ ∈ t := by
        rw [List.get_eq_getElem]
        dsimp only
        rw [List.getElem_append_left hklt]
        exact List.getElem_mem _
      exact fun hc => ht (hc ▸ hmem)
    have hcu : consume_until (s ++ '%' :: '(' :: (t ++ [')'])) (s.length + 1 + 1) ')'
        = .ok (t, s.length + (t.length + 2)) := by
      unfold consume_until
      rw [consume_until_loop_found (s ++ '%' :: '(' :: (t ++ [')']))
        (s.length + 1 + 1) ')'
        ((s ++ '%' :: '(' :: (t ++ [')'])).length - (s.length + 1 + 1))
        (s.length + 1 + 1) (s.length + (t.length + 2)) hp (by omega)
        (by rw [hlen]; omega) hgc hno]
      have hdrop : ((s ++ '%' :: '(' :: (t ++ [')'])).drop (s.length + 1 + 1))
          = t ++ [')'] := by
        have he : s ++ '%' :: '(' :: (t ++ [')'])
            = (s ++ ['%', '(']) ++ (t ++ [')']) := by simp
        rw [he]
        have hl2 : s.length + 1 + 1 = (s ++ ['%', '(']).length := by simp
        rw [hl2, List.drop_left]
      rw [hdrop]
      have htake : (t ++ [')']).take (s.length + (t.length + 2) - (s.length + 1 + 1))
          = t := by
        have h3 : s.length + (t.length + 2) - (s.length + 1 + 1) = t.length := by
          omega
        rw [h3, List.take_left]
      rw [htake]
    have hnc2 : next_char (s ++ '%' :: '(' :: (t ++ [')'])) (s.length + (t.length + 2))
        = .error ⟨s ++ '%' :: '(' :: (t ++ [')']), s.length + (t.length + 2),
            "reached end of string"⟩ := by
      unfold next_char
      rw [dif_neg (by rw [hlen]; omega)]
    unfold consume
    rw [hnc]
    simp only
    rw [if_pos trivial, hcu]
    simp only
    rw [hnc2]

/-- Closed witness for C7: the format strings `ab%`, `ab%(xy` and
`ab%(xy)` each fail to parse with a `ParseError` at the documented
offset. -/
theorem C7_incomplete_directive_witness :
    parse_format_string ("ab%".data)
        = .error ⟨"ab%".data, 2, "reached end of string"⟩
    ∧ parse_format_string ("ab%(xy".data)
        = .error ⟨"ab%(xy".data, 4, "reached end of string while searching"⟩
    ∧ parse_format_string ("ab%(xy)".data)
        = .error ⟨"ab%(xy)".data, 6, "reached end of string"⟩ := by
  have h := C7_incomplete_directive ("ab".data) ("xy".data) (by decide) (by decide)
  exact ⟨h.1, h.2.1, h.2.2⟩
